import Mathlib

/-!
Verification of the s3fs virtual-filesystem adapter (floj/caddy-s3fs).

The repository exposes an S3 bucket as a read-only hierarchical filesystem.
The sources ship two parallel revisions of several files (`file.go` holds both
revisions of the handle code; `fs.go` and the unnamed `part_001` are the two
revisions of the metadata resolver; `fileinfo.go`/`dirinfo.go` and the unnamed
`part_000` carry the metadata value types).  Where the revisions differ the
embedding keeps both, suffixed `A` (the `fs.go` / first half of `file.go`
revision) and `B` (the `part_001` / second half of `file.go` revision).
-/

namespace S3FSModel

/-! ### Go stdlib path helpers, modelled by their documented semantics -/

/-- Split a character list at `'/'` separators (the helper behind the model
of Go `path.Clean`); `cur` is the reversed current element. -/
def splitSlashAux : List Char → List Char → List (List Char)
  | [], cur => [cur.reverse]
  | c :: rest, cur =>
    if c = '/' then cur.reverse :: splitSlashAux rest []
    else splitSlashAux rest (c :: cur)

/-- Join path elements back with `'/'` separators. -/
def joinSlash : List (List Char) → List Char
  | [] => []
  | [x] => x
  | x :: y :: rest => x ++ '/' :: joinSlash (y :: rest)

/-- Does `s` start with the character list `pre`? -/
def leadMatch : List Char → List Char → Bool
  | [], _ => true
  | _ :: _, [] => false
  | a :: as, b :: bs => a = b && leadMatch as bs

/-- Does the string end with the `'/'` delimiter (Go `strings.HasSuffix s "/"`)? -/
def strEndsSlash (s : String) : Bool :=
  match s.data.reverse with
  | c :: _ => c = '/'
  | [] => false

/-- One step of Go `path.Clean`'s element processing: skip empty and `"."`
elements, resolve `".."` against the stack (dropping into the parent when one
is available, keeping literal `".."` elements only in relative paths). -/
def cleanStep (rooted : Bool) (stack : List (List Char)) (part : List Char) : List (List Char) :=
  if part = [] ∨ part = ['.'] then stack
  else if part = ['.', '.'] then
    match stack with
    | p :: rest => if p = ['.', '.'] then part :: p :: rest else rest
    | [] => if rooted then [] else [part]
  else part :: stack

/-- Go `path.Clean`: `Clean "" = "."`, collapses repeated separators, resolves
`"."` and `".."` elements, and keeps a leading `/` for rooted paths. -/
def pathClean (p : String) : String :=
  if p.data = [] then "."
  else
    let rooted : Bool := match p.data with | '/' :: _ => true | _ => false
    let stack := ((splitSlashAux p.data []).foldl (cleanStep rooted) []).reverse
    let body := joinSlash stack
    if rooted then String.mk ('/' :: body)
    else if body = [] then "." else String.mk body

/-- Go `path.Base`: `Base "" = "."`, trailing separators are removed, the last
element is returned, and a path of only separators gives `"/"`. -/
def pathBase (p : String) : String :=
  if p.data = [] then "."
  else
    let cs := (p.data.reverse).dropWhile (· = '/')
    if cs = [] then "/"
    else String.mk ((cs.takeWhile (· ≠ '/')).reverse)

/-- Go `strings.TrimPrefix s pre`. -/
def trimPref (s pre : String) : String :=
  if leadMatch pre.data s.data then String.mk (s.data.drop pre.data.length) else s

/-! ### Metadata value types

The Go sources use duck-typed `fs.FileInfo` implementations; the embedding is
the tagged variant over the implementations present in the sources:
`s3FileInfo` (fileinfo.go), `s3DirInfo` (dirinfo.go), `dirEntry` (the unnamed
part_000), and the four-argument `NewFileInfo` record used by the `B` revision
(its defining file is absent from the sources; the record shape is taken from
its call sites and the spec's Metadata record: name, kind, size, modTime). -/
inductive FI where
  | fileA (name : String) (size : Int) (modTime : Int)
  | dirA (name : String)
  | entry (name : String)
  | gen (name : String) (isDir : Bool) (size : Int) (modTime : Int)
deriving DecidableEq, Repr

/-- `newFileInfo` (fileinfo.go): stores `path.Base ("/" ++ name)`. -/
def newFileInfo (name : String) (size modTime : Int) : FI :=
  .fileA (pathBase ("/" ++ name)) size modTime

/-- `newDirInfo` (dirinfo.go): stores `path.Base ("/" ++ name)`. -/
def newDirInfo (name : String) : FI :=
  .dirA (pathBase ("/" ++ name))

/-- `newDirEntry` (part_000): stores the name unchanged. -/
def newDirEntry (name : String) : FI :=
  .entry name

/-- `NewFileInfo` of the `B` revision.  Modelled from the spec: the file
defining it is absent from the sources; per the spec's Metadata record it
carries name, kind, size and modification time verbatim. -/
def NewFileInfo (name : String) (isDir : Bool) (size modTime : Int) : FI :=
  .gen name isDir size modTime

/-- `Size()`: file infos report the stored size, directory infos report 0. -/
def FI.Size : FI → Int
  | .fileA _ s _ => s
  | .dirA _ => 0
  | .entry _ => 0
  | .gen _ _ s _ => s

/-- `IsDir()`. -/
def FI.IsDir : FI → Bool
  | .fileA _ _ _ => false
  | .dirA _ => true
  | .entry _ => true
  | .gen _ d _ _ => d

/-- `Mode()` as an octal permission word.  `s3FileInfo.Mode` returns `0664`,
`s3DirInfo.Mode` and `dirEntry.Mode` return `0755` (their comments announce
775).  For the absent `B`-revision record the mode is modelled from the spec
(files 664, directories 775). -/
def FI.Mode : FI → Nat
  | .fileA _ _ _ => 0o664
  | .dirA _ => 0o755
  | .entry _ => 0o755
  | .gen _ d _ _ => if d then 0o775 else 0o664

/-! ### Metadata resolver (`Stat` / `statDirectory`) -/

/-- Outcome of `HeadObject` as the resolver distinguishes it: success with
size and modTime, a request failure with HTTP status 404, or any other
failure. -/
inductive HeadResult where
  | ok (size : Int) (modTime : Int)
  | notFound
  | errOther
deriving DecidableEq, Repr

/-- Outcome of the `ListObjectsV2` probe (`MaxKeys = 1`): the returned
`KeyCount`, or a transport failure. -/
inductive ProbeResult where
  | ok (keyCount : Int)
  | err
deriving DecidableEq, Repr

/-- The store as the resolver sees it: `head` keyed by the object key and
`probe` keyed by the listing prefix. -/
structure StatStore where
  head : String → HeadResult
  probe : String → ProbeResult

/-- Resolver errors: `*fs.PathError` wrapping `fs.ErrNotExist`, or wrapping
any other (transport) cause; both carry the op and path. -/
inductive StatErr where
  | pathNotExist (op path : String)
  | pathTransport (op path : String)
deriving DecidableEq, Repr

/-- `statDirectory` of `fs.go` (revision A).  Note the source reassigns the
cleaned path onto `name` itself before the `name != ""` guard. -/
def statDirectoryA (st : StatStore) (name0 : String) : Except StatErr FI :=
  let name := pathClean name0
  match st.probe (trimPref name "/") with
  | .err => .error (.pathTransport "stat" name)
  | .ok kc =>
    if kc = 0 ∧ name ≠ "" then .error (.pathNotExist "stat" name)
    else .ok (newDirEntry (pathBase name))

/-- `Stat` of `fs.go` (revision A): head lookup, 404 falls back to
`statDirectoryA`, a trailing slash on success is a directory marker. -/
def statA (st : StatStore) (name : String) : Except StatErr FI :=
  match st.head name with
  | .notFound => statDirectoryA st name
  | .errOther => .error (.pathTransport "stat" name)
  | .ok size modTime =>
    if strEndsSlash name then .ok (newDirEntry name)
    else .ok (newFileInfo (pathBase name) size modTime)

/-- `statDirectory` of the unnamed `part_001` (revision B).  The cleaned path
goes to a fresh `nameClean`; the `name != ""` guard tests the original. -/
def statDirectoryB (st : StatStore) (name : String) : Except StatErr FI :=
  let nameClean := pathClean name
  match st.probe (trimPref nameClean "/") with
  | .err => .error (.pathTransport "stat" name)
  | .ok kc =>
    if kc = 0 ∧ name ≠ "" then .error (.pathNotExist "stat" name)
    else .ok (NewFileInfo (pathBase name) true 0 0)

/-- `Stat` of `part_001` (revision B).  The trailing-slash success branch
returns a bare `FileInfo{name: name}`; that type's file is absent from the
sources, so the branch is modelled from the spec (a trailing delimiter always
denotes synthetic Directory metadata). -/
def statB (st : StatStore) (name : String) : Except StatErr FI :=
  match st.head name with
  | .notFound => statDirectoryB st name
  | .errOther => .error (.pathTransport "stat" name)
  | .ok size modTime =>
    if strEndsSlash name then .ok (NewFileInfo name true 0 0)
    else .ok (NewFileInfo (pathBase name) false size modTime)

/-- The empty bucket: every head lookup misses, every probe counts zero keys. -/
def emptyBucket : StatStore :=
  ⟨fun _ => .notFound, fun _ => .ok 0⟩

/-- `true` iff the resolver outcome is a NotExist path error. -/
def isNotExistErr : Except StatErr FI → Bool
  | .error (.pathNotExist _ _) => true
  | _ => false

/-! ### Directory lister (`ReadDir` / `ReadDirAll`) -/

/-- One `ListObjectsV2` page: the common-prefix groupings, the listed objects
(key, size, modTime) and the `IsTruncated` flag.  `NextContinuationToken` is
modelled by the page index. -/
structure ListPage where
  commonPrefs : List String
  contents : List (String × Int × Int)
  isTruncated : Bool
deriving DecidableEq, Repr

/-- Outcome of one `ListObjectsV2` call. -/
inductive ListResult where
  | page (p : ListPage)
  | fail
deriving DecidableEq, Repr

/-- The mutable listing state on the handle: the continuation token (modelled
as the index of the next page) and the `readDirNotTruncated` flag. -/
structure DirState where
  token : Nat
  notTruncated : Bool
deriving DecidableEq, Repr

/-- Per-call errors of `ReadDir`. -/
inductive DirErr where
  | eof
  | transport
deriving DecidableEq, Repr

/-- The entries revision A builds from one page: a `newDirInfo` per common
prefix, then a `newFileInfo` per listed object whose key does not end in the
delimiter (marker objects are skipped). -/
def pageEntriesA (p : ListPage) : List FI :=
  p.commonPrefs.map (fun s => newDirInfo s) ++
    p.contents.filterMap (fun c =>
      if strEndsSlash c.1 then none
      else some (newFileInfo c.1 c.2.1 c.2.2))

/-- `ReadDir` of revision A for `n > 0` (file.go lines 41-85): immediately
`io.EOF` once `readDirNotTruncated` is set; otherwise one `ListObjectsV2`
call, advancing the continuation token and latching the flag when the page is
not truncated.  On a transport failure it returns no entries and the error,
leaving the listing state untouched. -/
def readDirPageA (pages : Nat → ListResult) (st : DirState) :
    Except DirErr (List FI) × DirState :=
  if st.notTruncated then (.error .eof, st)
  else
    match pages st.token with
    | .fail => (.error .transport, st)
    | .page p =>
      (.ok (pageEntriesA p),
       ⟨st.token + 1, if p.isTruncated then st.notTruncated else true⟩)

/-- `ReadDirAll` of revision A (file.go lines 87-100), fuelled: loop calling
`ReadDir 1000`, appending each page's entries; `io.EOF` breaks the loop and
returns the accumulation with no error, while any other error returns
`(nil, err)` — the Go source discards the accumulated slice on that path.
`none` models a loop that has not terminated within the fuel. -/
def readDirAllA (pages : Nat → ListResult) :
    Nat → DirState → List FI → Option ((List FI × Option DirErr) × DirState)
  | 0, _, _ => none
  | fuel + 1, st, acc =>
    match readDirPageA pages st with
    | (.ok infos, st') => readDirAllA pages fuel st' (acc ++ infos)
    | (.error .eof, st') => some ((acc, none), st')
    | (.error .transport, st') => some (([], some .transport), st')

/-- A store whose first page lists one object and announces more, and whose
second call fails. -/
def pagesThenFail : Nat → ListResult := fun i =>
  if i = 0 then .page ⟨[], [("a.txt", 5, 0)], true⟩ else .fail

/-- A store with two good pages; the second one ends the listing. -/
def pagesTwoGood : Nat → ListResult := fun i =>
  if i = 0 then .page ⟨[], [("a.txt", 5, 0)], true⟩
  else if i = 1 then .page ⟨["dir/"], [("b.txt", 3, 0)], false⟩
  else .fail

/-- A bucket where every head lookup misses but the listing probe always
finds one key: every path stats as an implicit directory. -/
def oneKeyBucket : StatStore :=
  ⟨fun _ => .notFound, fun _ => .ok 1⟩

/-! ### Range stream (`rangeReader`) and the file handle -/

/-- An open range stream: the bytes remaining in the fetched window, plus a
flag driving the model of the HTTP body's `Close` (`true` means closing the
body reports an error). -/
structure Stream where
  rem : List Nat
  closeErr : Bool
deriving DecidableEq, Repr

/-- `READAHEAD = 1024 * 64` (file.go line 28). -/
def READAHEAD : Int := 1024 * 64

/-- The byte range `[frm, target]` (inclusive) of the object's content, as
the store's `GetObject` returns it for `Range: bytes=frm-target`. -/
def sliceIncl (content : List Nat) (frm target : Int) : List Nat :=
  (content.drop frm.toNat).take (target - frm + 1).toNat

/-- `rangeReader` (reader.go lines 37-59): pad the requested amount with the
read-ahead, clamp the inclusive end to `size - 1`, and signal `io.EOF`
without any request when `frm` is at or past the size; otherwise issue one
byte-range request.  The first component is the request issued, if any. -/
def rangeReaderCore (content : List Nat) (size frm amt : Int) :
    Option (Int × Int) × Except Unit Stream :=
  let amt2 := amt + READAHEAD
  let target0 := frm + amt2 - 1
  let target := if target0 ≥ size then size - 1 else target0
  if frm ≥ size then (none, .error ())
  else (some (frm, target), .ok ⟨sliceIncl content frm target, false⟩)

/-- Model of one `Read` of the HTTP body into a buffer of `plen` bytes: the
bytes delivered, whether the body signalled `io.EOF`, and the body afterwards
(`none` once exhausted). -/
def streamTake (s : Stream) (plen : Nat) : List Nat × Bool × Option Stream :=
  if s.rem = [] then ([], true, none)
  else
    let bytes := s.rem.take plen
    let rest := s.rem.drop plen
    if rest = [] then (bytes, true, none)
    else (bytes, false, some ⟨rest, s.closeErr⟩)

/-- Status one `Read` call reports: a nil error, or `io.EOF`. -/
inductive ReadStatus where
  | ok
  | eofSig
deriving DecidableEq, Repr

/-- Everything one `Read` call produces: the bytes delivered, the status, the
byte-range request issued (if a stream was opened), and the handle's offset
and stream afterwards. -/
structure ReadOut where
  bytes : List Nat
  status : ReadStatus
  req : Option (Int × Int)
  off : Int
  stream : Option Stream
deriving DecidableEq, Repr

/-- Tail of `Read` once a stream is at hand (file.go lines 137-149): read
from the body; a body `io.EOF` closes and clears the stream and is
suppressed; the offset advances by the bytes read; `io.EOF` is reported iff
the new offset has reached the cached size. -/
def readFromStream (size off : Int) (s : Stream) (plen : Nat)
    (req : Option (Int × Int)) : ReadOut :=
  let (bytes, _, rest) := streamTake s plen
  let off2 := off + bytes.length
  ⟨bytes, if off2 ≥ size then .eofSig else .ok, req, off2, rest⟩

/-- `Read` (file.go lines 129-150 and 340-361, identical in the two
revisions): lazily open a range stream at the current offset when none is
open — a failure of that open (here only `io.EOF` for an offset at or past
the size) is returned with zero bytes — then read from the stream. -/
def readStep (content : List Nat) (size off : Int) (stream : Option Stream)
    (plen : Nat) : ReadOut :=
  match stream with
  | some s => readFromStream size off s plen none
  | none =>
    match rangeReaderCore content size off plen with
    | (req, .error _) => ⟨[], .eofSig, req, off, none⟩
    | (req, .ok s) => readFromStream size off s plen req

/-- Revision A handle state (file.go lines 14-26): cached metadata size,
current offset, optional open stream. -/
structure HandleA where
  size : Int
  off : Int
  stream : Option Stream
deriving DecidableEq, Repr

/-- Revision B handle state (file.go lines 193-207): additionally carries the
terminal `closed` flag. -/
structure HandleB where
  size : Int
  off : Int
  stream : Option Stream
  closed : Bool
deriving DecidableEq, Repr

/-- `Read` on a revision A handle. -/
def fileReadA (content : List Nat) (h : HandleA) (plen : Nat) : ReadOut :=
  readStep content h.size h.off h.stream plen

/-- `Read` on a revision B handle (line-for-line the same as revision A; the
`RangeReader` helper it calls is absent from the sources and is modelled from
the spec's Range Stream, which coincides with reader.go's `rangeReader`). -/
def fileReadB (content : List Nat) (h : HandleB) (plen : Nat) : ReadOut :=
  readStep content h.size h.off h.stream plen

/-- Fold a `ReadOut` back into a revision A handle. -/
def applyReadA (h : HandleA) (o : ReadOut) : HandleA :=
  ⟨h.size, o.off, o.stream⟩

/-- Repeated `Read` with a buffer of `plen` bytes until `io.EOF`, fuelled:
returns the concatenated bytes and whether `io.EOF` was reached within the
fuel. -/
def readAllA (content : List Nat) (plen : Nat) :
    Nat → HandleA → List Nat → List Nat × Bool
  | 0, _, acc => (acc, false)
  | fuel + 1, h, acc =>
    let o := fileReadA content h plen
    match o.status with
    | .eofSig => (acc ++ o.bytes, true)
    | .ok => readAllA content plen fuel (applyReadA h o) (acc ++ o.bytes)

/-- The two `Seek` failures: `fs.ErrClosed` and `fs.ErrInvalid`. -/
inductive SeekErr where
  | errClosed
  | errInvalid
deriving DecidableEq, Repr

/-- `io.SeekStart` / `io.SeekCurrent` / `io.SeekEnd`. -/
inductive Whence where
  | seekStart
  | seekCurrent
  | seekEnd
deriving DecidableEq, Repr

/-- The `whence` switch shared verbatim by both revisions of `Seek`
(file.go lines 157-164 and 374-381): note `whence=end` computes
`size - offset`. -/
def seekTarget (size off offset : Int) : Whence → Int
  | .seekStart => offset
  | .seekCurrent => off + offset
  | .seekEnd => size - offset

/-- `Seek` of revision A (file.go lines 152-177): a handle with no open
stream is rejected with `fs.ErrClosed`; `whence=end` computes
`size − offset`; a negative target is rejected with `fs.ErrInvalid`
(returning the target); otherwise the open stream is dropped — the field is
nilled whichever direction the move goes — and the offset moved. -/
def seekA (h : HandleA) (offset : Int) (whence : Whence) :
    (Int × Option SeekErr) × HandleA :=
  match h.stream with
  | none => ((0, some .errClosed), h)
  | some _ =>
    let start := seekTarget h.size h.off offset whence
    if start < 0 then ((start, some .errInvalid), h)
    else ((start, none), ⟨h.size, start, none⟩)

/-- `Seek` of revision B (file.go lines 369-394): identical to revision A
except that the guard is the `closed` flag. -/
def seekB (h : HandleB) (offset : Int) (whence : Whence) :
    (Int × Option SeekErr) × HandleB :=
  if h.closed then ((0, some .errClosed), h)
  else
    let start := seekTarget h.size h.off offset whence
    if start < 0 then ((start, some .errInvalid), h)
    else ((start, none), ⟨h.size, start, none, h.closed⟩)

/-- `Close` of revision A (file.go lines 113-120): nothing to do without an
open stream; otherwise close the stream, clear the field, and return the
stream's close error. -/
def closeA (h : HandleA) : Option Unit × HandleA :=
  match h.stream with
  | none => (none, h)
  | some s => ((if s.closeErr then some () else none), ⟨h.size, h.off, none⟩)

/-- `Close` of revision B (file.go lines 309-322): set the terminal flag,
close and clear any open stream discarding its error, and return nil. -/
def closeB (h : HandleB) : Option Unit × HandleB :=
  (none, ⟨h.size, h.off, none, true⟩)

/-- Apply a list of `Seek` requests in order on a revision A handle,
collecting each call's result. -/
def applySeeksA (h : HandleA) :
    List (Int × Whence) → List (Int × Option SeekErr) × HandleA
  | [] => ([], h)
  | r :: rs =>
    let (res, h2) := seekA h r.1 r.2
    let (ress, h3) := applySeeksA h2 rs
    (res :: ress, h3)

/-- Apply a list of `Seek` requests in order on a revision B handle. -/
def applySeeksB (h : HandleB) :
    List (Int × Whence) → List (Int × Option SeekErr) × HandleB
  | [] => ([], h)
  | r :: rs =>
    let (res, h2) := seekB h r.1 r.2
    let (ress, h3) := applySeeksB h2 rs
    (res :: ress, h3)

/-- `Stat` on a revision A handle (file.go lines 102-111): the resolver is
invoked only when no metadata is cached, and a successful lookup is cached.
The resolver is modelled as the sequence of answers successive lookups get,
paired with a counter of lookups made so far. -/
def handleStatA (answers : Nat → Except Unit FI) (info : Option FI) (n : Nat) :
    Except Unit FI × Option FI × Nat :=
  match info with
  | some i => (.ok i, some i, n)
  | none =>
    match answers n with
    | .ok i => (.ok i, some i, n + 1)
    | .error e => (.error e, none, n + 1)

/-- `Stat` on a revision B handle (file.go lines 299-305): the resolver is
invoked on every call; a successful answer overwrites the cached metadata. -/
def handleStatB (answers : Nat → Except Unit FI) (info : Option FI) (n : Nat) :
    Except Unit FI × Option FI × Nat :=
  match answers n with
  | .ok i => (.ok i, some i, n + 1)
  | .error e => (.error e, info, n + 1)

/-- A resolver whose `n`-th answer is a file info of size `n + 1`: successive
lookups observe different metadata. -/
def growingAnswers : Nat → Except Unit FI := fun n => .ok (.fileA "a" (n + 1) 0)

/-- Invariant tying an open stream to position `k` of the content: the
remaining bytes are exactly a nonempty contiguous slice of the content
starting at byte `k` and ending within the object. -/
def streamOK (content : List Nat) (k : Nat) : Option Stream → Prop
  | none => True
  | some s => s.rem ≠ [] ∧ s.rem = (content.drop k).take s.rem.length ∧
      k + s.rem.length ≤ content.length

/-- A five-byte object. -/
def fiveBytes : List Nat := [10, 11, 12, 13, 14]

/-- A handle on the five-byte object at offset 0 with an open stream over the
whole object. -/
def fiveHandle : HandleA := ⟨5, 0, some ⟨fiveBytes, false⟩⟩

end S3FSModel

open S3FSModel

/-- C1: on the empty bucket, revision A's `Stat ""` fails with NotExist
(because `path.Clean "" = "."` is reassigned onto `name` before the
`name != ""` guard), while revision B's `Stat ""` succeeds as a Directory;
moreover revision B never produces NotExist for the empty path on any store. -/
theorem stat_root_empty_bucket :
    statA emptyBucket "" = .error (.pathNotExist "stat" ".") ∧
    statB emptyBucket "" = .ok (NewFileInfo "." true 0 0) ∧
    (NewFileInfo "." true 0 0).IsDir = true ∧
    (∀ st : StatStore, isNotExistErr (statB st "") = false) := by
  refine ⟨by rfl, by rfl, by rfl, ?_⟩
  intro st
  unfold statB statDirectoryB isNotExistErr
  rcases h : st.head "" with ⟨s, m⟩ | _ | _ <;> simp only [h] <;>
    first
      | rfl
      | (rcases hp : st.probe (trimPref (pathClean "") "/") with ⟨kc⟩ | _ <;> simp [hp])

/-- C3: `ReadDirAll` discards accumulated entries on a mid-enumeration
transport failure.  On `pagesThenFail` the first page yields one entry, yet
the list-all loop returns `([], transport error)` — contradicting the source's
own `ReadDir` doc comment ("returns the FileInfo read until that point and a
non-nil error").  When the end-of-listing sentinel is reached without error
(`pagesTwoGood`) it does return the complete entry set with no error. -/
theorem readDirAll_discards_accumulated :
    (readDirPageA pagesThenFail ⟨0, false⟩).1 = .ok [FI.fileA "a.txt" 5 0] ∧
    readDirAllA pagesThenFail 3 ⟨0, false⟩ [] =
      some (([], some .transport), ⟨1, false⟩) ∧
    readDirAllA pagesTwoGood 3 ⟨0, false⟩ [] =
      some (([FI.fileA "a.txt" 5 0, FI.dirA "dir", FI.fileA "b.txt" 3 0],
             none), ⟨2, true⟩) := by
  refine ⟨by rfl, by rfl, by rfl⟩

/-- C7: every file metadata record reports mode `0664` as claimed, but every
directory record produced by the sources reports mode `0755`, not the claimed
`0775` — including a directory obtained from `Stat` — contradicting the
comment above `Mode` ("664 for files, 775 for directories"). -/
theorem dir_mode_is_755_not_775 :
    (newFileInfo "a.txt" 5 0).Mode = 0o664 ∧
    (newDirInfo "dir").Mode = 0o755 ∧
    (newDirEntry "dir/").Mode = 0o755 ∧
    statA oneKeyBucket "dir" = .ok (newDirEntry "dir") ∧
    (((0o755 : Nat) == 0o775) = false) := by
  refine ⟨rfl, rfl, rfl, by rfl, by decide⟩

/-! ### Helper lemmas (shared) -/

/-- A revision A handle without an open stream rejects every `Seek` with the
Closed error and is left untouched. -/
theorem seekA_no_stream (h : HandleA) (offset : Int) (w : Whence)
    (hs : h.stream = none) : seekA h offset w = ((0, some .errClosed), h) := by
  simp [seekA, hs]

/-- A closed revision B handle rejects every `Seek` with the Closed error and
is left untouched. -/
theorem seekB_closed (h : HandleB) (offset : Int) (w : Whence)
    (hc : h.closed = true) : seekB h offset w = ((0, some .errClosed), h) := by
  simp [seekB, hc]

/-- Iterated `Seek` on a stream-less revision A handle: every call is
rejected and the handle never changes. -/
theorem applySeeksA_no_stream (h : HandleA) (hs : h.stream = none) :
    ∀ reqs : List (Int × Whence),
      applySeeksA h reqs =
        (List.replicate reqs.length (0, some SeekErr.errClosed), h)
  | [] => by simp [applySeeksA]
  | r :: rs => by
    simp [applySeeksA, seekA_no_stream h r.1 r.2 hs,
      applySeeksA_no_stream h hs rs, List.replicate_succ]

/-- Iterated `Seek` on a closed revision B handle: every call is rejected and
the handle never changes. -/
theorem applySeeksB_closed (h : HandleB) (hc : h.closed = true) :
    ∀ reqs : List (Int × Whence),
      applySeeksB h reqs =
        (List.replicate reqs.length (0, some SeekErr.errClosed), h)
  | [] => by simp [applySeeksB]
  | r :: rs => by
    simp [applySeeksB, seekB_closed h r.1 r.2 hc,
      applySeeksB_closed h hc rs, List.replicate_succ]

/-- After revision A's `Close` the stream field is cleared and the offset and
size are untouched. -/
theorem closeA_state (h : HandleA) :
    (closeA h).2 = ⟨h.size, h.off, none⟩ := by
  rcases h with ⟨sz, off, st⟩
  rcases st with _ | s <;> simp [closeA]

/-- The request issued by `rangeReader`: none at or past the size, otherwise
the inclusive range from `frm` to `min (frm + amt + 65536 - 1) (size - 1)`. -/
theorem rangeReaderCore_req (content : List Nat) (size frm amt : Int) :
    (rangeReaderCore content size frm amt).1 =
      if size ≤ frm then none
      else some (frm, min (frm + amt + 65536 - 1) (size - 1)) := by
  unfold rangeReaderCore READAHEAD
  by_cases hge : size ≤ frm
  · simp [hge]
  · simp only [ge_iff_le, hge, if_false]
    congr 2
    split <;> omega

/-- The stream produced by `rangeReader` on the same range. -/
theorem rangeReaderCore_res (content : List Nat) (size frm amt : Int) :
    (rangeReaderCore content size frm amt).2 =
      if size ≤ frm then .error ()
      else .ok ⟨sliceIncl content frm (min (frm + amt + 65536 - 1) (size - 1)),
                false⟩ := by
  unfold rangeReaderCore READAHEAD
  by_cases hge : size ≤ frm
  · simp [hge]
  · simp only [ge_iff_le, hge, if_false]
    congr 3
    split <;> omega

/-- A `Read` on a handle with no open stream issues exactly the request
`rangeReader` computes. -/
theorem readStep_no_stream_req (content : List Nat) (size off : Int) (plen : Nat) :
    (readStep content size off none plen).req =
      (rangeReaderCore content size off (plen : Int)).1 := by
  unfold readStep
  rcases hr : rangeReaderCore content size off (plen : Int) with ⟨req, res⟩
  rcases res with _ | s
  · simp
  · rcases hst : streamTake s plen with ⟨b, e, r⟩
    simp [readFromStream, hst]

/-- A successful revision A `Seek` leaves the state at the returned offset
with no open stream. -/
theorem seekA_success_state (h : HandleA) (offset : Int) (w : Whence)
    (hok : (seekA h offset w).1.2 = none) :
    (seekA h offset w).2 = ⟨h.size, (seekA h offset w).1.1, none⟩ := by
  rcases h with ⟨sz, off, st⟩
  rcases st with _ | s
  · simp [seekA] at hok
  · by_cases hneg : seekTarget sz off offset w < 0
    · simp [seekA, hneg] at hok
    · simp [seekA, hneg]

/-- A successful revision B `Seek` leaves the state at the returned offset
with no open stream and the `closed` flag untouched. -/
theorem seekB_success_state (h : HandleB) (offset : Int) (w : Whence)
    (hok : (seekB h offset w).1.2 = none) :
    (seekB h offset w).2 = ⟨h.size, (seekB h offset w).1.1, none, h.closed⟩ := by
  rcases h with ⟨sz, off, st, c⟩
  cases c
  · by_cases hneg : seekTarget sz off offset w < 0
    · simp [seekB, hneg] at hok
    · simp [seekB, hneg]
  · simp [seekB] at hok

/-- C4 counterexample: revision A's `Close` (file.go lines 113-120) does
propagate the stream-release error — closing a handle whose open stream fails
to close returns that error, not success. -/
theorem closeA_propagates_release_error :
    (closeA ⟨1, 0, some ⟨[], true⟩⟩).1 = some () := rfl

/-- C4 (amended): `Close` is idempotent in both revisions — every call after
the first returns success and leaves the handle unchanged — and `Close`
releases any open stream.  Revision B's `Close` always reports success,
swallowing release errors; revision A's first `Close` returns the release
error when one occurs (see the counterexample). -/
theorem close_idempotent_releases_stream (h : HandleA) (hb : HandleB) :
    closeA (closeA h).2 = (none, (closeA h).2) ∧
    ((closeA h).2).stream = none ∧
    (closeB hb).1 = none ∧
    closeB (closeB hb).2 = (none, (closeB hb).2) ∧
    ((closeB hb).2).stream = none := by
  refine ⟨?_, ?_, rfl, rfl, rfl⟩ <;> (rw [closeA_state]; try simp [closeA])

/-- C5: after `Close`, every subsequent `Seek`, for all offset and whence
arguments, is rejected with the Closed error (returning offset 0), and the
handle — its offset in particular — stays exactly as `Close` left it, which
is the offset it had before `Close`; in both revisions. -/
theorem seek_after_close_rejected (h : HandleA) (hb : HandleB)
    (reqs : List (Int × Whence)) :
    (applySeeksA (closeA h).2 reqs).1 =
      List.replicate reqs.length (0, some SeekErr.errClosed) ∧
    (applySeeksA (closeA h).2 reqs).2 = (closeA h).2 ∧
    ((closeA h).2).off = h.off ∧
    (applySeeksB (closeB hb).2 reqs).1 =
      List.replicate reqs.length (0, some SeekErr.errClosed) ∧
    (applySeeksB (closeB hb).2 reqs).2 = (closeB hb).2 ∧
    ((closeB hb).2).off = hb.off := by
  have hA := applySeeksA_no_stream (closeA h).2 (by rw [closeA_state]) reqs
  have hB := applySeeksB_closed (closeB hb).2 rfl reqs
  refine ⟨by rw [hA], by rw [hA], by rw [closeA_state], by rw [hB], by rw [hB], rfl⟩

/-- C6 counterexample: revision B's `Stat` (file.go lines 299-305) issues a
fresh resolver lookup on every call — after a first successful `Stat` cached
`fileA "a" 1 0` at lookup count 1, a second `Stat` raises the count to 2 and
returns different metadata than the cache held. -/
theorem statB_refetches_metadata :
    handleStatB growingAnswers none 0 =
      (.ok (.fileA "a" 1 0), some (.fileA "a" 1 0), 1) ∧
    handleStatB growingAnswers (some (.fileA "a" 1 0)) 1 =
      (.ok (.fileA "a" 2 0), some (.fileA "a" 2 0), 2) ∧
    ((FI.fileA "a" 2 0 == FI.fileA "a" 1 0) = false) := by
  refine ⟨rfl, rfl, by decide⟩

/-- C6 (amended): revision A's `Stat` (file.go lines 102-111) fetches
metadata at most once — a first successful lookup is cached and every later
`Stat` returns the cache without touching the resolver (the lookup counter
stays put) — while revision B refetches on every call (see the
counterexample). -/
theorem statA_fetches_at_most_once (answers : Nat → Except Unit FI) (n : Nat)
    (i : FI) (hfirst : answers n = .ok i) :
    handleStatA answers none n = (.ok i, some i, n + 1) ∧
    ∀ m, handleStatA answers (some i) m = (.ok i, some i, m) := by
  exact ⟨by simp [handleStatA, hfirst], fun m => rfl⟩

/-- C6 witness: the amended theorem at the `growingAnswers` resolver. -/
theorem statA_fetches_at_most_once_witness :
    growingAnswers 0 = .ok (.fileA "a" 1 0) ∧
    (handleStatA growingAnswers none 0 =
        (.ok (.fileA "a" 1 0), some (.fileA "a" 1 0), 1) ∧
      ∀ m, handleStatA growingAnswers (some (.fileA "a" 1 0)) m =
        (.ok (.fileA "a" 1 0), some (.fileA "a" 1 0), m)) :=
  ⟨rfl, statA_fetches_at_most_once growingAnswers 0 (.fileA "a" 1 0) rfl⟩

/-- C8: on an open handle (revision A: a stream is open; revision B: not
closed), `Seek(offset, whence=end)` computes the target `size − offset` —
the offset measured forward from the end — and a non-negative target becomes
the new offset and the returned value, in both revisions. -/
theorem seek_end_is_size_minus_offset (h : HandleA) (hb : HandleB)
    (offset : Int) (s : Stream) (hsA : h.stream = some s)
    (hsB : hb.closed = false) (hA : 0 ≤ h.size - offset)
    (hB : 0 ≤ hb.size - offset) :
    seekA h offset .seekEnd =
      ((h.size - offset, none), ⟨h.size, h.size - offset, none⟩) ∧
    seekB hb offset .seekEnd =
      ((hb.size - offset, none), ⟨hb.size, hb.size - offset, none, false⟩) := by
  constructor
  · simp only [seekA, hsA]
    rw [show seekTarget h.size h.off offset .seekEnd = h.size - offset from rfl,
      if_neg (by omega)]
  · simp only [seekB, hsB, Bool.false_eq_true, if_false]
    rw [show seekTarget hb.size hb.off offset .seekEnd = hb.size - offset from rfl,
      if_neg (by omega)]

/-- C8 witness: seeking 3 from the end of a 10-byte object lands at offset 7. -/
theorem seek_end_is_size_minus_offset_witness :
    (⟨10, 0, some ⟨[], false⟩⟩ : HandleA).stream = some ⟨[], false⟩ ∧
    (⟨10, 0, none, false⟩ : HandleB).closed = false ∧
    (0 : Int) ≤ 10 - 3 ∧
    (seekA ⟨10, 0, some ⟨[], false⟩⟩ 3 .seekEnd = ((7, none), ⟨10, 7, none⟩) ∧
      seekB ⟨10, 0, none, false⟩ 3 .seekEnd = ((7, none), ⟨10, 7, none, false⟩)) :=
  ⟨rfl, rfl, by decide,
    seek_end_is_size_minus_offset ⟨10, 0, some ⟨[], false⟩⟩ ⟨10, 0, none, false⟩ 3
      ⟨[], false⟩ rfl rfl (by decide) (by decide)⟩

/-- C9: `rangeReader(from, requestedLength)` over an object of `totalSize`
bytes signals end-of-data with no request when `from ≥ totalSize`, and
otherwise issues exactly the byte-range request
`[from, min (from + requestedLength + 65536 - 1) (totalSize - 1)]`, whose
body is that slice of the content; the read-ahead constant is 65536 bytes. -/
theorem rangeReader_request_bounds (content : List Nat) (size frm amt : Int) :
    (rangeReaderCore content size frm amt).1 =
      (if size ≤ frm then none
       else some (frm, min (frm + amt + 65536 - 1) (size - 1))) ∧
    (rangeReaderCore content size frm amt).2 =
      (if size ≤ frm then .error ()
       else .ok ⟨sliceIncl content frm (min (frm + amt + 65536 - 1) (size - 1)),
                 false⟩) ∧
    READAHEAD = 65536 :=
  ⟨rangeReaderCore_req content size frm amt,
   rangeReaderCore_res content size frm amt, rfl⟩

/-- C10 counterexample: a successful `Seek` to the end of a 5-byte object
(target 5 = size − 0) clears the stream, but the next `Read` does not open
any byte-range fetch — it reports `io.EOF` with no request — refuting "the
next Read always opens a fresh byte-range fetch". -/
theorem seek_then_read_opens_no_fetch :
    (seekA fiveHandle 0 .seekEnd).1 = (5, none) ∧
    ((seekA fiveHandle 0 .seekEnd).2).stream = none ∧
    (fileReadA fiveBytes (seekA fiveHandle 0 .seekEnd).2 3).req = none ∧
    (fileReadA fiveBytes (seekA fiveHandle 0 .seekEnd).2 3).status = .eofSig := by
  refine ⟨rfl, rfl, rfl, rfl⟩

/-- C10 (amended): every successful `Seek` — including one whose target
equals the current offset, and whichever direction it moves — leaves the
handle with no open stream, so the next `Read` never resumes a previous
stream: when the new offset is inside the object it opens a fresh byte-range
fetch starting exactly at the new offset, and when the new offset is at or
past the end it signals end-of-data with no fetch; in both revisions. -/
theorem seek_clears_stream_read_fetches_at_offset (h : HandleA) (hb : HandleB)
    (offset : Int) (w : Whence) (content : List Nat) (plen : Nat)
    (hokA : (seekA h offset w).1.2 = none)
    (hokB : (seekB hb offset w).1.2 = none) :
    ((seekA h offset w).2).stream = none ∧
    ((seekB hb offset w).2).stream = none ∧
    (fileReadA content (seekA h offset w).2 plen).req =
      (if h.size ≤ ((seekA h offset w).2).off then none
       else some (((seekA h offset w).2).off,
         min (((seekA h offset w).2).off + plen + 65536 - 1) (h.size - 1))) ∧
    (fileReadB content (seekB hb offset w).2 plen).req =
      (if hb.size ≤ ((seekB hb offset w).2).off then none
       else some (((seekB hb offset w).2).off,
         min (((seekB hb offset w).2).off + plen + 65536 - 1) (hb.size - 1))) := by
  have hsA := seekA_success_state h offset w hokA
  have hsB := seekB_success_state hb offset w hokB
  refine ⟨by rw [hsA], by rw [hsB], ?_, ?_⟩
  · rw [fileReadA, hsA]
    rw [show (⟨h.size, (seekA h offset w).1.1, none⟩ : HandleA).stream = none from rfl,
      readStep_no_stream_req, rangeReaderCore_req]
  · rw [fileReadB, hsB]
    rw [show (⟨hb.size, (seekB hb offset w).1.1, none, hb.closed⟩ : HandleB).stream
        = none from rfl,
      readStep_no_stream_req, rangeReaderCore_req]

/-- C10 witness: the amended theorem at a concrete forward seek of a 10-byte
object with an open stream. -/
theorem seek_clears_stream_read_fetches_at_offset_witness :
    (seekA ⟨10, 2, some ⟨[0, 1], false⟩⟩ 4 .seekStart).1.2 = none ∧
    (seekB ⟨10, 2, none, false⟩ 4 .seekStart).1.2 = none ∧
    (((seekA ⟨10, 2, some ⟨[0, 1], false⟩⟩ 4 .seekStart).2).stream = none ∧
      ((seekB ⟨10, 2, none, false⟩ 4 .seekStart).2).stream = none ∧
      (fileReadA [9, 9, 9] (seekA ⟨10, 2, some ⟨[0, 1], false⟩⟩ 4 .seekStart).2 2).req =
        (if (10 : Int) ≤ ((seekA ⟨10, 2, some ⟨[0, 1], false⟩⟩ 4 .seekStart).2).off
         then none
         else some (((seekA ⟨10, 2, some ⟨[0, 1], false⟩⟩ 4 .seekStart).2).off,
           min (((seekA ⟨10, 2, some ⟨[0, 1], false⟩⟩ 4 .seekStart).2).off + 2 + 65536 - 1)
             (10 - 1))) ∧
      (fileReadB [9, 9, 9] (seekB ⟨10, 2, none, false⟩ 4 .seekStart).2 2).req =
        (if (10 : Int) ≤ ((seekB ⟨10, 2, none, false⟩ 4 .seekStart).2).off then none
         else some (((seekB ⟨10, 2, none, false⟩ 4 .seekStart).2).off,
           min (((seekB ⟨10, 2, none, false⟩ 4 .seekStart).2).off + 2 + 65536 - 1)
             (10 - 1)))) :=
  ⟨rfl, rfl,
    seek_clears_stream_read_fetches_at_offset ⟨10, 2, some ⟨[0, 1], false⟩⟩
      ⟨10, 2, none, false⟩ 4 .seekStart [9, 9, 9] 2 rfl rfl⟩

/-- Closed form of one HTTP-body read when bytes remain. -/
theorem streamTake_eq (s : Stream) (plen : Nat) (h1 : s.rem ≠ []) :
    streamTake s plen =
      (s.rem.take plen,
       decide (s.rem.length ≤ plen),
       if s.rem.length ≤ plen then none
       else some ⟨s.rem.drop plen, s.closeErr⟩) := by
  unfold streamTake
  rw [if_neg h1]
  by_cases hle : s.rem.length ≤ plen
  · rw [if_pos (List.drop_eq_nil_iff.mpr hle)]
    simp [hle]
  · rw [if_neg (fun hcon => hle (List.drop_eq_nil_iff.mp hcon))]
    simp [hle]

/-- Closed form of the tail of `Read` when bytes remain on the stream. -/
theorem readFromStream_eq (size off : Int) (s : Stream) (plen : Nat)
    (req : Option (Int × Int)) (h1 : s.rem ≠ []) :
    readFromStream size off s plen req =
      ⟨s.rem.take plen,
       if off + (s.rem.take plen).length ≥ size then .eofSig else .ok,
       req, off + (s.rem.take plen).length,
       if s.rem.length ≤ plen then none
       else some ⟨s.rem.drop plen, s.closeErr⟩⟩ := by
  unfold readFromStream
  rw [streamTake_eq s plen h1]

/-- On a position `k` strictly inside the object with a buffer of at least
one byte, `rangeReader` opens a stream satisfying the position invariant. -/
theorem rangeReaderCore_opens (content : List Nat) (plen k : Nat)
    (hp : 0 < plen) (hk : k < content.length) :
    ∃ s : Stream,
      (rangeReaderCore content (content.length : Int) (k : Int) (plen : Int)).2 =
        .ok s ∧
      s.rem ≠ [] ∧ s.rem = (content.drop k).take s.rem.length ∧
      k + s.rem.length ≤ content.length := by
  have hneg : ¬ ((content.length : Int) ≤ (k : Int)) := by exact_mod_cast Nat.not_le.mpr hk
  rw [rangeReaderCore_res, if_neg hneg]
  set target := min ((k : Int) + (plen : Int) + 65536 - 1) ((content.length : Int) - 1)
    with htarget
  have h1 : (k : Int) ≤ target := by omega
  have h2 : target ≤ (content.length : Int) - 1 := by omega
  have hL1 : 1 ≤ (target - (k : Int) + 1).toNat := by omega
  have hL2 : k + (target - (k : Int) + 1).toNat ≤ content.length := by omega
  have hslice : sliceIncl content (k : Int) target =
      (content.drop k).take (target - (k : Int) + 1).toNat := by
    unfold sliceIncl
    rw [Int.toNat_natCast]
  have hlen : (sliceIncl content (k : Int) target).length =
      (target - (k : Int) + 1).toNat := by
    rw [hslice, List.length_take, List.length_drop]
    omega
  refine ⟨_, rfl, ?_, ?_, ?_⟩
  · intro hcon
    have hX : sliceIncl content (k : Int) target = [] := hcon
    rw [hX] at hlen
    simp at hlen
    omega
  · rw [hlen, hslice]
  · rw [hlen]
    omega

/-- One `Read` step at position `k` inside the object, under the stream
invariant: some `t ≥ 1` bytes — the slice of the content at `k` — are
delivered, the offset advances to `k + t ≤ size`, the resulting stream state
again satisfies the invariant, and `io.EOF` is reported exactly when the end
was reached. -/
theorem readStep_at (content : List Nat) (plen k : Nat) (s : Option Stream)
    (hp : 0 < plen) (hk : k < content.length) (hs : streamOK content k s) :
    ∃ t s1, 0 < t ∧ k + t ≤ content.length ∧ streamOK content (k + t) s1 ∧
      (readStep content (content.length : Int) (k : Int) s plen).bytes =
        (content.drop k).take t ∧
      (readStep content (content.length : Int) (k : Int) s plen).off =
        ((k + t : Nat) : Int) ∧
      (readStep content (content.length : Int) (k : Int) s plen).stream = s1 ∧
      (readStep content (content.length : Int) (k : Int) s plen).status =
        (if content.length ≤ k + t then .eofSig else .ok) := by
  have key : ∀ (s0 : Stream) (req : Option (Int × Int)),
      s0.rem ≠ [] → s0.rem = (content.drop k).take s0.rem.length →
      k + s0.rem.length ≤ content.length →
      ∃ t s1, 0 < t ∧ k + t ≤ content.length ∧ streamOK content (k + t) s1 ∧
        (readFromStream (content.length : Int) (k : Int) s0 plen req).bytes =
          (content.drop k).take t ∧
        (readFromStream (content.length : Int) (k : Int) s0 plen req).off =
          ((k + t : Nat) : Int) ∧
        (readFromStream (content.length : Int) (k : Int) s0 plen req).stream = s1 ∧
        (readFromStream (content.length : Int) (k : Int) s0 plen req).status =
          (if content.length ≤ k + t then .eofSig else .ok) := by
    intro s0 req h1 h2 h3
    have hLpos : 0 < s0.rem.length := List.length_pos.mpr h1
    have hblen : (s0.rem.take plen).length = min plen s0.rem.length :=
      List.length_take plen s0.rem
    have hbytes : s0.rem.take plen = (content.drop k).take (min plen s0.rem.length) := by
      conv_lhs => rw [h2]
      rw [List.take_take]
    refine ⟨min plen s0.rem.length,
      if s0.rem.length ≤ plen then none else some ⟨s0.rem.drop plen, s0.closeErr⟩,
      by omega, by omega, ?_, ?_, ?_, ?_, ?_⟩
    · by_cases hle : s0.rem.length ≤ plen
      · rw [if_pos hle]
        trivial
      · rw [if_neg hle]
        have hrest : s0.rem.drop plen =
            (content.drop (k + plen)).take (s0.rem.length - plen) := by
          conv_lhs => rw [h2]
          rw [List.drop_take, List.drop_drop]
        have hrlen : (s0.rem.drop plen).length = s0.rem.length - plen :=
          List.length_drop plen s0.rem
        refine ⟨?_, ?_, ?_⟩
        · intro hcon
          rw [List.drop_eq_nil_iff] at hcon
          omega
        · show s0.rem.drop plen =
            (content.drop (k + min plen s0.rem.length)).take (s0.rem.drop plen).length
          rw [hrlen, hrest]
          have hmin : k + min plen s0.rem.length = k + plen := by omega
          rw [hmin]
        · show k + min plen s0.rem.length + (s0.rem.drop plen).length ≤ content.length
          rw [hrlen]
          omega
    · rw [readFromStream_eq _ _ _ _ _ h1, hbytes]
    · rw [readFromStream_eq _ _ _ _ _ h1]
      show (k : Int) + ((s0.rem.take plen).length : Int) = _
      rw [hblen]
      push_cast
      omega
    · rw [readFromStream_eq _ _ _ _ _ h1]
    · rw [readFromStream_eq _ _ _ _ _ h1]
      show (if (k : Int) + ((s0.rem.take plen).length : Int) ≥ (content.length : Int)
            then ReadStatus.eofSig else .ok) = _
      rw [hblen]
      by_cases hend : content.length ≤ k + min plen s0.rem.length
      · rw [if_pos (by push_cast; omega), if_pos hend]
      · rw [if_neg (by push_cast; omega), if_neg hend]
  rcases s with _ | s0
  · -- no open stream: Read opens one via rangeReader
    rcases rangeReaderCore_opens content plen k hp hk with ⟨s0, hres, h1, h2, h3⟩
    rcases hrr : rangeReaderCore content (content.length : Int) (k : Int) (plen : Int)
      with ⟨req, res⟩
    rw [hrr] at hres
    simp only at hres
    subst hres
    have hstep : readStep content (content.length : Int) (k : Int) none plen =
        readFromStream (content.length : Int) (k : Int) s0 plen req := by
      unfold readStep
      rw [hrr]
    rw [hstep]
    exact key s0 req h1 h2 h3
  · -- a stream is already open and satisfies the invariant
    rcases hs with ⟨h1, h2, h3⟩
    have hstep : readStep content (content.length : Int) (k : Int) (some s0) plen =
        readFromStream (content.length : Int) (k : Int) s0 plen none := rfl
    rw [hstep]
    exact key s0 none h1 h2 h3

/-- Core induction for the read round-trip: from position `k`, with a
position-consistent stream state, the accumulated bytes so far being the
first `k` bytes, and enough fuel, the fuelled read loop delivers the whole
content and reaches `io.EOF`. -/
theorem readAllA_completes (content : List Nat) (plen : Nat) (hp : 0 < plen) :
    ∀ fuel k s, k ≤ content.length → content.length + 1 ≤ k + fuel →
      streamOK content k s →
      readAllA content plen fuel ⟨(content.length : Int), (k : Int), s⟩
        (content.take k) = (content, true) := by
  intro fuel
  induction fuel with
  | zero =>
    intro k s hk hf _
    exact absurd hf (by omega)
  | succ fuel ih =>
    intro k s hk hf hs
    rcases Nat.lt_or_ge k content.length with hlt | hge
    · rcases readStep_at content plen k s hp hlt hs with
        ⟨t, s1, ht, hkt, hs1, hbytes, hoff, hstream, hstatus⟩
      have hread : fileReadA content ⟨(content.length : Int), (k : Int), s⟩ plen =
          readStep content (content.length : Int) (k : Int) s plen := rfl
      have hacc : content.take k ++ (content.drop k).take t = content.take (k + t) :=
        (List.take_add content k t).symm
      simp only [readAllA, hread]
      by_cases hend : content.length ≤ k + t
      · rw [if_pos hend] at hstatus
        rw [hstatus]
        simp only [hbytes, hacc]
        have : k + t = content.length := by omega
        rw [this, List.take_length]
      · rw [if_neg hend] at hstatus
        rw [hstatus]
        simp only [hbytes, hacc, applyReadA, hoff, hstream]
        exact ih (k + t) s1 (by omega) (by omega) hs1
    · -- k = content.length: the next Read signals io.EOF with no bytes
      have hkN : k = content.length := by omega
      have hsome : s = none := by
        rcases s with _ | s0
        · rfl
        · rcases hs with ⟨h1, _, h3⟩
          have := List.length_pos.mpr h1
          omega
      subst hsome
      subst hkN
      have hread : fileReadA content
          ⟨(content.length : Int), (content.length : Int), none⟩ plen =
          ⟨[], .eofSig, none, (content.length : Int), none⟩ := by
        unfold fileReadA readStep
        rcases hrr : rangeReaderCore content (content.length : Int)
            (content.length : Int) (plen : Int) with ⟨req, res⟩
        have hsnd := rangeReaderCore_res content (content.length : Int)
          (content.length : Int) (plen : Int)
        have hfst := rangeReaderCore_req content (content.length : Int)
          (content.length : Int) (plen : Int)
        rw [hrr, if_pos le_rfl] at hsnd hfst
        simp only at hsnd hfst
        subst hsnd
        subst hfst
        rfl
      simp only [readAllA, hread]
      rw [List.take_length]
      simp

/-- C2: reading a file of size `N` by repeated `Read` calls from offset 0
with any fixed nonempty buffer until the `io.EOF` sentinel, concatenated,
yields exactly the object's full content (hence exactly `N` bytes), given a
store whose byte-range retrieval returns the requested range of the
content.  `content.length + 1` rounds of fuel always suffice. -/
theorem read_roundtrip (content : List Nat) (plen : Nat) (hp : 0 < plen) :
    readAllA content plen (content.length + 1)
      ⟨(content.length : Int), 0, none⟩ [] = (content, true) := by
  have h := readAllA_completes content plen hp (content.length + 1) 0 none
    (Nat.zero_le _) (by omega) trivial
  simpa using h

/-- C2 witness: the round-trip at a concrete 3-byte object with a 2-byte
buffer. -/
theorem read_roundtrip_witness :
    0 < 2 ∧
    readAllA [3, 1, 4] 2 ([3, 1, 4].length + 1)
      ⟨(([3, 1, 4] : List Nat).length : Int), 0, none⟩ [] = ([3, 1, 4], true) :=
  ⟨by decide, read_roundtrip [3, 1, 4] 2 (by decide)⟩
